import Mathlib

/-!
Verification development for the `BrowserUseAgent` module
(`src/agent/browser_use/browser_use_agent.py`): a pacing layer over an external
browser-automation agent.  The module's own logic is embedded shallowly below:

* the delay-settings cache (`_cache_delay_settings`, `invalidate_delay_cache`),
  with the `_delay_settings_cache` dict modelled as an association list with
  Python dict assignment semantics;
* `_apply_delay`, parameterised by the Python `float` parser (partial: a
  `ValueError` is `none`) and by one sampled outcome of `random.uniform`;
  its observable behaviour is the ordered list of log/sleep effects;
* the overridden `multi_act`, parameterised by the base primitive
  `super().multi_act([a], check_for_new_elements=...)`;
* the `run` loop, modelled as a fuel-bounded iteration (fuel = `max_steps`,
  exactly mirroring `for step in range(max_steps)` with its `for/else`) over an
  agent state, parameterised by the external collaborators (`self.step`,
  `history.is_done`, `_validate_output`, hooks, `signal_handler.wait_for_resume`).
  External signal arrivals during the paused busy-wait are modelled as a list of
  signals, one consumed per `asyncio.sleep(0.2)` cycle; an empty remaining
  schedule while still paused means the busy-wait spins forever, which is the
  only way the model returns `none` (Python exceptions other than the modelled
  `KeyboardInterrupt` do not occur in this code).  Execution of the optional
  `initial_actions` and `_log_agent_run` only affect the pre-loop state and are
  absorbed into the arbitrary initial `AgentState`.
-/

namespace BrowserUseAgent

/-- Snapshot of `os.environ`: a partial map from variable names to values. -/
abbrev Env := String → Option String

/-- One cached entry of `_delay_settings_cache`: the four keys stored by
`_cache_delay_settings` for a category. -/
structure DelaySettings where
  enable_random : Bool
  delay_minutes : String
  min_delay_minutes : String
  max_delay_minutes : String
deriving DecidableEq, Repr

/-- The `delay_types` list iterated by `_cache_delay_settings`. -/
def delay_types : List String := ["STEP", "ACTION", "TASK"]

/-- Python `str.lower()` on the ASCII configuration strings involved here:
character-wise lowering. -/
def pyLower (s : String) : String := ⟨s.data.map Char.toLower⟩

/-- Body of the `for delay_type in delay_types` loop in `_cache_delay_settings`:
`os.environ.get` with defaults, the `if not s: s = "0.0"` empty-string fallback
for the three numeric strings, and `lower() == "true"` for the flag. -/
def cacheDelaySettingsFor (env : Env) (delay_type : String) : DelaySettings :=
  let enable_random_str := (env (delay_type ++ "_ENABLE_RANDOM_INTERVAL")).getD "false"
  let enable_random := pyLower enable_random_str == "true"
  let delay_minutes_str0 := (env (delay_type ++ "_DELAY_MINUTES")).getD "0.0"
  let delay_minutes_str := if delay_minutes_str0 == "" then "0.0" else delay_minutes_str0
  let min_delay_str0 := (env (delay_type ++ "_MIN_DELAY_MINUTES")).getD "0.0"
  let min_delay_str := if min_delay_str0 == "" then "0.0" else min_delay_str0
  let max_delay_str0 := (env (delay_type ++ "_MAX_DELAY_MINUTES")).getD "0.0"
  let max_delay_str := if max_delay_str0 == "" then "0.0" else max_delay_str0
  ⟨enable_random, delay_minutes_str, min_delay_str, max_delay_str⟩

/-- The `_delay_settings_cache` dict, as an association list. -/
abbrev Cache := List (String × DelaySettings)

/-- Python dict assignment `cache[k] = v`: replace in place when the key is
present (keeping insertion order), else append. -/
def cacheInsert (c : Cache) (k : String) (v : DelaySettings) : Cache :=
  if c.any (fun p => p.1 == k) then
    c.map (fun p => if p.1 == k then (k, v) else p)
  else
    c ++ [(k, v)]

/-- Python `cache.get(k)`. -/
def cacheGet (c : Cache) (k : String) : Option DelaySettings :=
  (c.find? (fun p => p.1 == k)).map Prod.snd

/-- Model of `_cache_delay_settings`: one dict assignment per category, in
order, on the existing cache. -/
def cache_delay_settings (env : Env) (c : Cache) : Cache :=
  delay_types.foldl (fun acc dt => cacheInsert acc dt (cacheDelaySettingsFor env dt)) c

/-- Successive states of `_delay_settings_cache` while `_cache_delay_settings`
runs: the cache before the loop, then the cache after each of the three
per-category dict assignments. -/
def cache_delay_settings_states (env : Env) (c : Cache) : List Cache :=
  delay_types.scanl (fun acc dt => cacheInsert acc dt (cacheDelaySettingsFor env dt)) c

/-- Cache built by `__init__`: start from the empty dict and populate. -/
def initial_cache (env : Env) : Cache := cache_delay_settings env []

/-- Model of `invalidate_delay_cache`: re-run `_cache_delay_settings` on the
current cache (re-reading the environment snapshot `env`). -/
def invalidate_delay_cache (env : Env) (c : Cache) : Cache := cache_delay_settings env c

/-- Observable effects of one `_apply_delay` call, in program order: the
warning/info log lines and the awaited `asyncio.sleep` durations (seconds). -/
inductive DelayEvent
  | warnMissing (delay_type : String)
  | warnInvalidRandom (delay_type : String)
  | warnInvalidFixed (delay_type : String)
  | infoRandomDelay
  | infoRandomNoDelay
  | infoFixedDelay
  | sleep (seconds : ℚ)
deriving DecidableEq, Repr

/-- Model of `_apply_delay`.  `parseFloat` is Python `float(...)` (a raised
`ValueError` is `none`); `uniform lo hi` is the outcome `random.uniform(lo, hi)`
returns in this call.  The function always returns an effect list: the
`try/except ValueError` in the source means parse failures produce a warning
rather than a propagated exception. -/
def apply_delay (parseFloat : String → Option ℚ) (uniform : ℚ → ℚ → ℚ)
    (cache : Cache) (delay_type : String) : List DelayEvent :=
  match cacheGet cache delay_type with
  | none => [.warnMissing delay_type]
  | some settings =>
    if settings.enable_random then
      match parseFloat settings.min_delay_minutes, parseFloat settings.max_delay_minutes with
      | some min_delay_minutes_raw, some max_delay_minutes_raw =>
        let min_seconds_raw := min_delay_minutes_raw * 60
        let max_seconds_raw := max_delay_minutes_raw * 60
        let actual_min_seconds := min min_seconds_raw max_seconds_raw
        let actual_max_seconds := max min_seconds_raw max_seconds_raw
        if 0 < actual_max_seconds then
          [.infoRandomDelay, .sleep (uniform actual_min_seconds actual_max_seconds)]
        else
          [.infoRandomNoDelay]
      | _, _ => [.warnInvalidRandom delay_type]
    else
      match parseFloat settings.delay_minutes with
      | some delay_minutes =>
        if 0 < delay_minutes then [.infoFixedDelay, .sleep (delay_minutes * 60)]
        else []
      | none => [.warnInvalidFixed delay_type]

/-- Total suspended time of an effect list, in seconds. -/
def totalSleep (events : List DelayEvent) : ℚ :=
  events.foldl (fun acc e => match e with | .sleep s => acc + s | _ => acc) 0

/-- Trace events of the overridden `multi_act`: one `_apply_delay("ACTION")`
call, or one `super().multi_act([a], ...)` call on a single action. -/
inductive MultiActEvent (α : Type)
  | actionDelay
  | execSingle (a : α)
deriving DecidableEq, Repr

/-- Recogniser for the ACTION-delay trace event. -/
def isActionDelay {α : Type} : MultiActEvent α → Bool
  | .actionDelay => true
  | _ => false

/-- The `for action in actions[1:]` loop of `multi_act`: delay, then execute the
single action via the base primitive, extending the results. -/
def multi_act_rest {α β : Type} (base : α → Bool → List β) (check : Bool) :
    List α → List (MultiActEvent α) × List β
  | [] => ([], [])
  | a :: rest =>
    let r := multi_act_rest base check rest
    (.actionDelay :: .execSingle a :: r.1, base a check ++ r.2)

/-- Model of the overridden `multi_act`: empty input short-circuits with no
delay; otherwise the first action runs alone with no preceding delay and each
later action is preceded by exactly one ACTION-category delay.  `base a check`
stands for `super().multi_act([a], check_for_new_elements=check)`. -/
def multi_act {α β : Type} (base : α → Bool → List β) (actions : List α)
    (check : Bool) : List (MultiActEvent α) × List β :=
  match actions with
  | [] => ([], [])
  | a :: rest =>
    let r := multi_act_rest base check rest
    (.execSingle a :: r.1, base a check ++ r.2)

/-- Fields of the `BrowserStateHistory` the synthetic exhaustion record is
built with. -/
structure BrowserStateHistory where
  url : String
  title : String
  tabs : List String
  screenshot : Option String
deriving DecidableEq, Repr

/-- Fields of `ActionResult` relevant here (library defaults: `is_done = False`). -/
structure ActionResult where
  is_done : Bool := false
  error : Option String := none
  include_in_memory : Bool := false
deriving DecidableEq, Repr

/-- One record of `state.history.history`; `model_output` and `metadata` are
opaque and modelled as optional strings (`none` in the synthetic record). -/
structure AgentHistory where
  model_output : Option String
  result : List ActionResult
  state : BrowserStateHistory
  metadata : Option String
deriving DecidableEq, Repr

/-- Error message of the synthetic budget-exhaustion record. -/
def exhaustion_error_message : String := "Failed to complete task in maximum steps"

/-- The synthetic `AgentHistory` record appended by the `for/else` branch of
`run` when the step budget is exhausted. -/
def failure_record : AgentHistory :=
  { model_output := none
    result := [{ is_done := false, error := some exhaustion_error_message,
                 include_in_memory := true }]
    state := { url := "", title := "", tabs := [], screenshot := none }
    metadata := none }

/-- The parts of `self.state` read and written by `run`. -/
structure AgentState where
  paused : Bool
  stopped : Bool
  consecutive_failures : Nat
  history : List AgentHistory
deriving DecidableEq, Repr

/-- External control signals that can arrive while the busy-wait sleeps; they
invoke the base agent's `pause`, `resume` and `stop` flag updates. -/
inductive Signal
  | pauseSig
  | resumeSig
  | stopSig
deriving DecidableEq, Repr

/-- Effect of one external signal on the control flags. -/
def applySignal : Signal → AgentState → AgentState
  | .pauseSig, s => { s with paused := true }
  | .resumeSig, s => { s with paused := false }
  | .stopSig, s => { s with stopped := true }

/-- The `generate_gif` setting: a Python `bool | str`. -/
inductive GifSetting
  | ofBool (b : Bool)
  | ofString (s : String)
deriving DecidableEq, Repr

/-- Python truthiness of `generate_gif` (`if self.settings.generate_gif:`). -/
def GifSetting.truthy : GifSetting → Bool
  | .ofBool b => b
  | .ofString s => !(s == "")

/-- Output path chosen by `run`: default `"agent_history.gif"`, overridden when
the setting is a string. -/
def GifSetting.outputPath : GifSetting → String
  | .ofBool _ => "agent_history.gif"
  | .ofString s => s

/-- The `self.settings` fields `run` reads. -/
structure Settings where
  max_failures : Nat
  validate_output : Bool
  save_playwright_script_path : Option String
  generate_gif : GifSetting
deriving DecidableEq, Repr

/-- External collaborators and configuration of one `run` call.  `step i m s`
is the effect of `await self.step(AgentStepInfo(i, m))` on the agent state;
`isDone` is `history.is_done()`; `validate` is `await self._validate_output()`;
the optional hooks receive the agent (state); `waitForResume` is the combined
effect of `signal_handler.wait_for_resume()` followed by `reset()`. -/
structure RunEnv where
  settings : Settings
  sensitive_data : Option (List (String × String))
  step : Nat → Nat → AgentState → AgentState
  isDone : List AgentHistory → Bool
  validate : AgentState → Bool
  onStepStart : Option (AgentState → AgentState)
  onStepEnd : Option (AgentState → AgentState)
  waitForResume : AgentState → AgentState

/-- Observable finalization effects of `run` (the `finally` block), in order. -/
inductive FinEvent
  | unregisterSignalHandler
  | attemptScriptSave (path : String) (sensitive_data_keys : Option (List String))
  | scriptSaveFailed
  | close
  | createGif (output_path : String)
deriving DecidableEq, Repr

/-- The `sensitive_data_keys` argument passed to `save_as_playwright_script`:
`list(self.sensitive_data.keys()) if self.sensitive_data else None` — key names
only, never values. -/
def sensitiveKeys : Option (List (String × String)) → Option (List String)
  | none => none
  | some m => if m.isEmpty then none else some (m.map Prod.fst)

/-- Script-export part of the `finally` block: attempted only when a save path
is configured; a failure is caught and logged (`scriptSaveFailed`), never
re-raised. -/
def scriptEvents (st : Settings) (sd : Option (List (String × String)))
    (save_fails : Bool) : List FinEvent :=
  match st.save_playwright_script_path with
  | some path =>
    FinEvent.attemptScriptSave path (sensitiveKeys sd) ::
      (if save_fails then [FinEvent.scriptSaveFailed] else [])
  | none => []

/-- GIF part of the `finally` block. -/
def gifEvents (st : Settings) : List FinEvent :=
  if st.generate_gif.truthy then [FinEvent.createGif st.generate_gif.outputPath] else []

/-- The whole `finally` block of `run`: unregister the signal handler, attempt
the script export, `await self.close()`, render the GIF. -/
def finalize (st : Settings) (sd : Option (List (String × String)))
    (save_fails : Bool) : List FinEvent :=
  FinEvent.unregisterSignalHandler :: (scriptEvents st sd save_fails ++ (FinEvent.close :: gifEvents st))

/-- Observable events of one iteration of the `for step in range(max_steps)`
loop.  `applyDelay cat i` records the call `self._apply_delay(cat)` made at
iteration `i`; `stepExec i` records `await self.step(step_info)`. -/
inductive RunEvent
  | waitForResume
  | failuresExceededBreak
  | stoppedBreak
  | pauseSleep
  | hookStart
  | applyDelay (category : String) (stepIdx : Nat)
  | stepExec (stepIdx : Nat)
  | hookEnd
  | validateRun (ok : Bool)
  | logCompletion
deriving DecidableEq, Repr

/-- Events that are neither a delay application nor a step execution. -/
def benign : RunEvent → Bool
  | .applyDelay _ _ => false
  | .stepExec _ => false
  | _ => true

/-- Recogniser for step executions. -/
def isStepExec : RunEvent → Bool
  | .stepExec _ => true
  | _ => false

/-- Result of one loop iteration: final state, remaining signal schedule,
events in order, and whether the iteration executed `break`. -/
structure IterOut where
  state : AgentState
  sigs : List Signal
  events : List RunEvent
  broke : Bool
deriving Repr

/-- The `while self.state.paused: await asyncio.sleep(0.2); if stopped: break`
busy-wait.  Each sleep lets one scheduled external signal act on the flags;
after the sleep the `stopped` flag is re-checked.  Result: state after the
wait, unconsumed schedule, and the number of sleep cycles; `none` when the
schedule runs out while still paused (the real loop would spin forever). -/
def busyWait : AgentState → List Signal → Option (AgentState × List Signal × Nat)
  | s, [] => if s.paused then none else some (s, [], 0)
  | s, sig :: rest =>
    if s.paused then
      let s1 := applySignal sig s
      if s1.stopped then some (s1, rest, 1)
      else
        match busyWait s1 rest with
        | none => none
        | some (s2, rem, k) => some (s2, rem, k + 1)
    else some (s, sig :: rest, 0)

/-- Events of the optional `on_step_start` hook call. -/
def hookStartEvs (o : Option (AgentState → AgentState)) : List RunEvent :=
  match o with
  | some _ => [.hookStart]
  | none => []

/-- Events of the optional `on_step_end` hook call. -/
def hookEndEvs (o : Option (AgentState → AgentState)) : List RunEvent :=
  match o with
  | some _ => [.hookEnd]
  | none => []

/-- The TASK delay applied only at step index 0 (`if step == 0`). -/
def taskDelayEvs (stepIdx : Nat) : List RunEvent :=
  if stepIdx = 0 then [.applyDelay "TASK" stepIdx] else []

/-- The completion check at the bottom of an iteration:
`if history.is_done(): if validate_output and step < max_steps - 1: if not
validate(): continue; log_completion(); break`.  Returns the events and whether
the iteration breaks. -/
def completionEvs (done gate ok : Bool) : List RunEvent × Bool :=
  if done then
    if gate then
      if ok then ([.validateRun true, .logCompletion], true)
      else ([.validateRun false], false)
    else ([.logCompletion], true)
  else ([], false)

/-- The `if self.state.paused: signal_handler.wait_for_resume(); reset()` check
at the top of an iteration: resulting state. -/
def preState (env : RunEnv) (s0 : AgentState) : AgentState :=
  if s0.paused then env.waitForResume s0 else s0

/-- Events of the loop-top pause check. -/
def preEvents (paused : Bool) : List RunEvent :=
  if paused then [.waitForResume] else []

/-- Tail of an iteration, from the `on_step_start` hook on: hook, STEP delay,
TASK delay at step 0, `self.step`, `on_step_end` hook, completion check. -/
def iterTail (env : RunEnv) (max_steps stepIdx : Nat) (s2 : AgentState)
    (sigs1 : List Signal) : IterOut :=
  let s3 := match env.onStepStart with
    | some h => h s2
    | none => s2
  let s4 := env.step stepIdx max_steps s3
  let s5 := match env.onStepEnd with
    | some h => h s4
    | none => s4
  let comp := completionEvs (env.isDone s5.history)
    (env.settings.validate_output && decide (stepIdx < max_steps - 1))
    (env.validate s5)
  ⟨s5, sigs1,
    hookStartEvs env.onStepStart ++
      ((RunEvent.applyDelay "STEP" stepIdx :: taskDelayEvs stepIdx) ++
        (RunEvent.stepExec stepIdx :: (hookEndEvs env.onStepEnd ++ comp.1))),
    comp.2⟩

/-- One iteration of the `for step in range(max_steps)` loop body, with
`stepIdx` the current `step` value: loop-top pause check, failure-threshold
check, stop check, paused busy-wait, then the iteration tail. -/
def runIter (env : RunEnv) (max_steps stepIdx : Nat) (s0 : AgentState)
    (sigs0 : List Signal) : Option IterOut :=
  let s1 := preState env s0
  if env.settings.max_failures ≤ s1.consecutive_failures then
    some ⟨s1, sigs0, preEvents s0.paused ++ [.failuresExceededBreak], true⟩
  else if s1.stopped then
    some ⟨s1, sigs0, preEvents s0.paused ++ [.stoppedBreak], true⟩
  else
    match busyWait s1 sigs0 with
    | none => none
    | some (s2, sigs1, k) =>
      let t := iterTail env max_steps stepIdx s2 sigs1
      some ⟨t.state, t.sigs, preEvents s0.paused ++ (List.replicate k .pauseSleep ++ t.events), t.broke⟩

/-- The whole `for step in range(max_steps)` loop, by remaining fuel.  Returns
the final state, the per-iteration event blocks (tagged with their step index),
and whether the `for/else` branch fires (loop exhausted without `break`). -/
def runSteps (env : RunEnv) (max_steps : Nat) :
    Nat → Nat → AgentState → List Signal →
    Option (AgentState × List (Nat × List RunEvent) × Bool)
  | 0, _, s, _ => some (s, [], true)
  | fuel + 1, stepIdx, s, sigs =>
    match runIter env max_steps stepIdx s sigs with
    | none => none
    | some out =>
      if out.broke then
        some (out.state, [(stepIdx, out.events)], false)
      else
        match runSteps env max_steps fuel (stepIdx + 1) out.state out.sigs with
        | none => none
        | some (s1, blocks, elseFired) =>
          some (s1, (stepIdx, out.events) :: blocks, elseFired)

/-- Outcome of a `run` call: the returned history, the loop's event blocks,
whether the exhaustion (`for/else`) branch fired, and the finalization events. -/
structure RunResult where
  history : List AgentHistory
  blocks : List (Nat × List RunEvent)
  exhausted : Bool
  fin : List FinEvent
deriving DecidableEq, Repr

/-- Model of `run`.  `interrupt = some sI` means a `KeyboardInterrupt` reaches
the `except` clause while the state is `sI`: the current history is returned
and the `finally` block still runs.  On the normal path the loop runs; if the
`for/else` fires the synthetic failure record is appended.  Every returned
path executes `finalize`; `none` only models the busy-wait spinning forever. -/
def run (env : RunEnv) (max_steps : Nat) (s : AgentState) (sigs : List Signal)
    (interrupt : Option AgentState) (script_save_fails : Bool) : Option RunResult :=
  match interrupt with
  | some sI =>
    some ⟨sI.history, [], false, finalize env.settings env.sensitive_data script_save_fails⟩
  | none =>
    match runSteps env max_steps max_steps 0 s sigs with
    | none => none
    | some (s1, blocks, elseFired) =>
      let history := if elseFired then s1.history ++ [failure_record] else s1.history
      some ⟨history, blocks, elseFired, finalize env.settings env.sensitive_data script_save_fails⟩

/-- Total number of `self.step` executions recorded in the loop blocks. -/
def stepExecTotal (blocks : List (Nat × List RunEvent)) : Nat :=
  (blocks.map (fun b => b.2.countP isStepExec)).sum

/-- Shape of one iteration's event list: either a loop-top break (failure
threshold or stop) with only benign events before it, or a full iteration in
which the STEP delay (and, at index 0, the TASK delay) immediately precedes
the single step execution. -/
def IterEventsShape (stepIdx : Nat) (evs : List RunEvent) : Prop :=
  (∃ pre, evs = pre ++ [RunEvent.failuresExceededBreak] ∧ pre.all benign = true) ∨
  (∃ pre, evs = pre ++ [RunEvent.stoppedBreak] ∧ pre.all benign = true) ∨
  (∃ pre post,
    evs = pre ++ (RunEvent.applyDelay "STEP" stepIdx ::
      (taskDelayEvs stepIdx ++ (RunEvent.stepExec stepIdx :: post))) ∧
    pre.all benign = true ∧ post.all benign = true)

/-- Environment snapshot with no pacing variables set. -/
def envNone : Env := fun _ => none

/-- Environment snapshot with changed STEP and TASK fixed delays. -/
def envChanged : Env := fun k =>
  if k = "STEP_DELAY_MINUTES" then some "2.0"
  else if k = "TASK_DELAY_MINUTES" then some "3.0"
  else none

/-- Cache state midway through `_cache_delay_settings` on `envChanged`: STEP
has been re-assigned, ACTION and TASK still hold the old entries. -/
def cacheMid : Cache :=
  cacheInsert (initial_cache envNone) "STEP" (cacheDelaySettingsFor envChanged "STEP")

/-- Toy `float` parser used by witnesses. -/
def parse0 : String → Option ℚ := fun s =>
  if s = "0.0" then some 0
  else if s = "1.0" then some 1
  else if s = "2.0" then some 2
  else if s = "3.0" then some 3
  else if s = "-1.0" then some (-1)
  else none

/-- Toy `random.uniform` outcome used by witnesses: the lower endpoint. -/
def uniform0 : ℚ → ℚ → ℚ := fun lo _ => lo

/-- Witness cache: fixed positive STEP delay. -/
def cacheFixed : Cache := [("STEP", ⟨false, "2.0", "0.0", "0.0"⟩)]

/-- Witness cache: fixed negative STEP delay. -/
def cacheFixedNeg : Cache := [("STEP", ⟨false, "-1.0", "0.0", "0.0"⟩)]

/-- Witness cache: random ACTION delay with min/max given in reversed order. -/
def cacheRandom : Cache := [("ACTION", ⟨true, "0.0", "3.0", "1.0"⟩)]

/-- Witness cache: malformed fixed TASK delay. -/
def cacheBadFixed : Cache := [("TASK", ⟨false, "abc", "0.0", "0.0"⟩)]

/-- Witness cache: malformed random STEP delay. -/
def cacheBadRandom : Cache := [("STEP", ⟨true, "0.0", "abc", "1.0"⟩)]

/-- Settings used by run-loop witnesses: failure threshold 3, no output
validation, no artifacts. -/
def baseSettings : Settings := ⟨3, false, none, GifSetting.ofBool false⟩

/-- Run environment used by witnesses: identity collaborators that never
signal completion. -/
def baseEnv : RunEnv :=
  ⟨baseSettings, none, fun _ _ s => s, fun _ => false, fun _ => true, none, none, id⟩

/-- Settings with a script path and GIF path configured. -/
def artSettings : Settings := ⟨3, false, some "script.py", GifSetting.ofString "out.gif"⟩

/-- Run environment with artifacts and sensitive data configured. -/
def artEnv : RunEnv :=
  ⟨artSettings, some [("user", "secret")], fun _ _ s => s, fun _ => false,
   fun _ => true, none, none, id⟩

/-- Quiescent initial state. -/
def idleState : AgentState := ⟨false, false, 0, []⟩

/-- State already paused when the loop starts. -/
def pausedState : AgentState := ⟨true, false, 0, []⟩

/-- State already stopped when the loop starts. -/
def stoppedState : AgentState := ⟨false, true, 0, []⟩

/-- State whose consecutive failures exceed the threshold. -/
def failedState : AgentState := ⟨false, false, 5, []⟩

/-- Result of `run baseEnv 1 idleState [] none false`: one iteration, budget
exhausted, failure record appended. -/
def cRunExhaust : RunResult :=
  ⟨[failure_record],
    [(0, [RunEvent.applyDelay "STEP" 0, RunEvent.applyDelay "TASK" 0, RunEvent.stepExec 0])],
    true, [FinEvent.unregisterSignalHandler, FinEvent.close]⟩

/-- Result of `run baseEnv 2 idleState [] none false`: two iterations, budget
exhausted; TASK delay only at step 0. -/
def cRunTwo : RunResult :=
  ⟨[failure_record],
    [(0, [RunEvent.applyDelay "STEP" 0, RunEvent.applyDelay "TASK" 0, RunEvent.stepExec 0]),
      (1, [RunEvent.applyDelay "STEP" 1, RunEvent.stepExec 1])],
    true, [FinEvent.unregisterSignalHandler, FinEvent.close]⟩

/-- Result of `run baseEnv 1 stoppedState [] none false`: immediate stop break,
no completion, no synthetic failure record. -/
def cRunStopped : RunResult :=
  ⟨[], [(0, [RunEvent.stoppedBreak])], false,
    [FinEvent.unregisterSignalHandler, FinEvent.close]⟩

/-- Result of `run baseEnv 2 pausedState [Signal.stopSig] none false`: the stop
arrives during the paused busy-wait of iteration 0, yet iteration 0 still
executes its step; the loop breaks at the top of iteration 1. -/
def cRunPauseStop : RunResult :=
  ⟨[],
    [(0, [RunEvent.waitForResume, RunEvent.pauseSleep, RunEvent.applyDelay "STEP" 0,
        RunEvent.applyDelay "TASK" 0, RunEvent.stepExec 0]),
      (1, [RunEvent.waitForResume, RunEvent.stoppedBreak])],
    false, [FinEvent.unregisterSignalHandler, FinEvent.close]⟩

/-- Result of `run artEnv 0 idleState [] none true`: zero-step budget, full
finalization with failing script export, close and GIF still run. -/
def cRunArt : RunResult :=
  ⟨[failure_record], [], true,
    [FinEvent.unregisterSignalHandler,
      FinEvent.attemptScriptSave "script.py" (some ["user"]),
      FinEvent.scriptSaveFailed, FinEvent.close, FinEvent.createGif "out.gif"]⟩

/-- Result of `run baseEnv 5 idleState [] (some stoppedState) false`: the
interrupt path returns the current history and still finalizes. -/
def cRunIntr : RunResult :=
  ⟨[], [], false, [FinEvent.unregisterSignalHandler, FinEvent.close]⟩

theorem cacheGet_map_replace (t : Cache) (k : String) (v : DelaySettings) (q : String)
    (hq : q ≠ k) :
    cacheGet (t.map (fun p => if p.1 == k then (k, v) else p)) q = cacheGet t q := by
  induction t with
  | nil => rfl
  | cons p t ih =>
    by_cases hp : p.1 == k
    · have hpk : p.1 = k := by simpa using hp
      have h1 : (k == q) = false := by simp [Ne.symm hq]
      have h2 : (p.1 == q) = false := by simp [hpk, Ne.symm hq]
      simp [cacheGet, List.find?, hp, h1, h2] at ih ⊢
      exact ih
    · simp only [List.map_cons, hp, Bool.false_eq_true, if_false]
      by_cases hpq : p.1 == q
      · simp [cacheGet, List.find?, hpq]
      · simp [cacheGet, List.find?, hpq] at ih ⊢
        exact ih

theorem cacheGet_map_replace_same (k : String) (v : DelaySettings) :
    ∀ t : Cache, t.any (fun p => p.1 == k) = true →
      cacheGet (t.map (fun p => if p.1 == k then (k, v) else p)) k = some v := by
  intro t
  induction t with
  | nil => intro hany; simp at hany
  | cons p t ih =>
    intro hany
    by_cases hp : p.1 == k
    · simp [cacheGet, List.find?, hp]
    · simp only [List.any_cons, hp, Bool.false_or] at hany
      have ht := ih hany
      simp only [cacheGet, List.find?, List.map_cons, hp, Bool.false_eq_true, if_false] at ht ⊢
      exact ht

theorem cacheGet_append_new (k : String) (v : DelaySettings) (q : String) :
    ∀ t : Cache, t.any (fun p => p.1 == k) = false →
      cacheGet (t ++ [(k, v)]) q = if q = k then some v else cacheGet t q := by
  intro t
  induction t with
  | nil =>
    intro _
    by_cases hq : q = k
    · subst hq; simp [cacheGet, List.find?]
    · have h1 : (k == q) = false := by simp [Ne.symm hq]
      simp [cacheGet, List.find?, h1, hq]
  | cons p t ih =>
    intro hany
    simp only [List.any_cons, Bool.or_eq_false_iff] at hany
    have ht := ih hany.2
    by_cases hpq : p.1 == q
    · have hqk : ¬q = k := by
        intro he
        rw [he] at hpq
        exact absurd hpq (by simp [hany.1])
      simp [cacheGet, List.find?, hpq, hqk]
    · simp only [cacheGet, List.find?, List.cons_append, hpq, Bool.false_eq_true,
        if_false] at ht ⊢
      exact ht

theorem cacheGet_cacheInsert (c : Cache) (k : String) (v : DelaySettings) (q : String) :
    cacheGet (cacheInsert c k v) q = if q = k then some v else cacheGet c q := by
  unfold cacheInsert
  by_cases hany : c.any (fun p => p.1 == k) = true
  · simp only [hany, if_true]
    by_cases hq : q = k
    · rw [if_pos hq, hq]
      exact cacheGet_map_replace_same k v c hany
    · rw [if_neg hq]
      exact cacheGet_map_replace c k v q hq
  · simp only [Bool.not_eq_true] at hany
    simp only [hany, Bool.false_eq_true, if_false]
    exact cacheGet_append_new k v q c hany

theorem cache_delay_settings_eq (env : Env) (c : Cache) :
    cache_delay_settings env c =
      cacheInsert
        (cacheInsert (cacheInsert c "STEP" (cacheDelaySettingsFor env "STEP"))
          "ACTION" (cacheDelaySettingsFor env "ACTION"))
        "TASK" (cacheDelaySettingsFor env "TASK") := rfl

theorem cacheGet_cache_delay_settings (env : Env) (c : Cache) (dt : String)
    (h : dt ∈ delay_types) :
    cacheGet (cache_delay_settings env c) dt = some (cacheDelaySettingsFor env dt) := by
  rw [cache_delay_settings_eq]
  simp only [delay_types, List.mem_cons, List.not_mem_nil, or_false] at h
  rcases h with h | h | h
  · subst h
    rw [cacheGet_cacheInsert, if_neg (by decide), cacheGet_cacheInsert, if_neg (by decide),
      cacheGet_cacheInsert, if_pos rfl]
  · subst h
    rw [cacheGet_cacheInsert, if_neg (by decide), cacheGet_cacheInsert, if_pos rfl]
  · subst h
    rw [cacheGet_cacheInsert, if_pos rfl]

theorem warnMissing_not_mem (parseFloat : String → Option ℚ) (uniform : ℚ → ℚ → ℚ)
    (cache : Cache) (dt : String) (s : DelaySettings) (hs : cacheGet cache dt = some s) :
    DelayEvent.warnMissing dt ∉ apply_delay parseFloat uniform cache dt := by
  unfold apply_delay
  rw [hs]
  by_cases hr : s.enable_random
  · simp only [hr, if_true]
    cases parseFloat s.min_delay_minutes with
    | none => cases parseFloat s.max_delay_minutes <;> simp
    | some a =>
      cases parseFloat s.max_delay_minutes with
      | none => simp
      | some b => by_cases hc : (0 : ℚ) < max (a * 60) (b * 60) <;> simp [hc]
  · simp only [hr, Bool.false_eq_true, if_false]
    cases parseFloat s.delay_minutes with
    | none => simp
    | some v => split <;> simp

theorem multi_act_rest_events {α β : Type} (base : α → Bool → List β) (check : Bool) :
    ∀ rest : List α, (multi_act_rest base check rest).1 =
      rest.flatMap (fun b => [MultiActEvent.actionDelay, MultiActEvent.execSingle b]) := by
  intro rest
  induction rest with
  | nil => rfl
  | cons a t ih => simp [multi_act_rest, ih]

theorem multi_act_rest_results {α β : Type} (base : α → Bool → List β) (check : Bool) :
    ∀ rest : List α, (multi_act_rest base check rest).2 =
      rest.flatMap (fun a => base a check) := by
  intro rest
  induction rest with
  | nil => rfl
  | cons a t ih => simp [multi_act_rest, ih]

theorem countP_pair_bind {α : Type} :
    ∀ rest : List α,
      (rest.flatMap (fun b => [MultiActEvent.actionDelay, MultiActEvent.execSingle b])).countP
          (isActionDelay (α := α)) = rest.length := by
  intro rest
  induction rest with
  | nil => rfl
  | cons a t ih =>
    simp only [List.flatMap_cons, List.countP_append, ih]
    simp [List.countP_cons, isActionDelay, Nat.add_comm]

/-- C2: `multi_act` on the empty list returns the empty list with no delay; on
`[a1, ..., an]` it executes `a1` alone via the base primitive with no preceding
delay, then one ACTION delay before each later single-action execution, so
exactly `n - 1` inter-action delays occur and results come back concatenated in
the original order. -/
theorem multi_act_pacing_spec {α β : Type} (base : α → Bool → List β) (check : Bool)
    (actions : List α) :
    multi_act base ([] : List α) check = ([], []) ∧
    (multi_act base actions check).2 = actions.flatMap (fun a => base a check) ∧
    (multi_act base actions check).1.countP isActionDelay = actions.length - 1 ∧
    (multi_act base actions check).1 =
      (match actions with
       | [] => []
       | a :: rest =>
         MultiActEvent.execSingle a ::
           rest.flatMap (fun b => [MultiActEvent.actionDelay, MultiActEvent.execSingle b])) := by
  refine ⟨rfl, ?_, ?_, ?_⟩
  · cases actions with
    | nil => rfl
    | cons a rest => simp [multi_act, multi_act_rest_results]
  · cases actions with
    | nil => rfl
    | cons a rest =>
      simp only [multi_act, multi_act_rest_events, List.countP_cons, List.length_cons,
        Nat.add_sub_cancel]
      simp [countP_pair_bind rest, isActionDelay]
  · cases actions with
    | nil => rfl
    | cons a rest => simp [multi_act, multi_act_rest_events]

/-- C3: with a non-random config whose fixed `delay_minutes` parses to `v ≤ 0`,
`_apply_delay` suspends for zero time; with `v > 0` it suspends for exactly
`v * 60` seconds.  With a random config it converts minutes to seconds, reorders
so `lo = min` and `hi = max`, and when `hi > 0` sleeps a uniformly sampled
duration lying in `[lo, hi]` regardless of the input ordering, else applies no
delay. -/
theorem apply_delay_duration_spec (parseFloat : String → Option ℚ) (uniform : ℚ → ℚ → ℚ)
    (cache : Cache) (dt : String) (s : DelaySettings)
    (hs : cacheGet cache dt = some s) :
    (∀ v : ℚ, s.enable_random = false → parseFloat s.delay_minutes = some v → v ≤ 0 →
      apply_delay parseFloat uniform cache dt = [] ∧
      totalSleep (apply_delay parseFloat uniform cache dt) = 0) ∧
    (∀ v : ℚ, s.enable_random = false → parseFloat s.delay_minutes = some v → 0 < v →
      apply_delay parseFloat uniform cache dt =
        [DelayEvent.infoFixedDelay, DelayEvent.sleep (v * 60)] ∧
      totalSleep (apply_delay parseFloat uniform cache dt) = v * 60) ∧
    (∀ a b : ℚ, s.enable_random = true → parseFloat s.min_delay_minutes = some a →
      parseFloat s.max_delay_minutes = some b →
      (∀ x y : ℚ, x ≤ y → x ≤ uniform x y ∧ uniform x y ≤ y) →
      (0 < max (a * 60) (b * 60) →
        apply_delay parseFloat uniform cache dt =
          [DelayEvent.infoRandomDelay,
            DelayEvent.sleep (uniform (min (a * 60) (b * 60)) (max (a * 60) (b * 60)))] ∧
        min (a * 60) (b * 60) ≤ uniform (min (a * 60) (b * 60)) (max (a * 60) (b * 60)) ∧
        uniform (min (a * 60) (b * 60)) (max (a * 60) (b * 60)) ≤ max (a * 60) (b * 60)) ∧
      (max (a * 60) (b * 60) ≤ 0 →
        apply_delay parseFloat uniform cache dt = [DelayEvent.infoRandomNoDelay] ∧
        totalSleep (apply_delay parseFloat uniform cache dt) = 0)) := by
  refine ⟨?_, ?_, ?_⟩
  · intro v hr hv hle
    have he : apply_delay parseFloat uniform cache dt = [] := by
      unfold apply_delay
      rw [hs]
      simp [hr, hv, not_lt.mpr hle]
    exact ⟨he, by rw [he]; rfl⟩
  · intro v hr hv hpos
    have he : apply_delay parseFloat uniform cache dt =
        [DelayEvent.infoFixedDelay, DelayEvent.sleep (v * 60)] := by
      unfold apply_delay
      rw [hs]
      simp [hr, hv, hpos]
    exact ⟨he, by rw [he]; simp [totalSleep]⟩
  · intro a b hr hmin hmax hu
    constructor
    · intro hpos
      have he : apply_delay parseFloat uniform cache dt =
          [DelayEvent.infoRandomDelay,
            DelayEvent.sleep (uniform (min (a * 60) (b * 60)) (max (a * 60) (b * 60)))] := by
        unfold apply_delay
        rw [hs]
        simp [hr, hmin, hmax, hpos]
      have hb := hu (min (a * 60) (b * 60)) (max (a * 60) (b * 60)) (min_le_max)
      exact ⟨he, hb.1, hb.2⟩
    · intro hle
      have he : apply_delay parseFloat uniform cache dt = [DelayEvent.infoRandomNoDelay] := by
        unfold apply_delay
        rw [hs]
        simp [hr, hmin, hmax, not_lt.mpr hle]
      exact ⟨he, by rw [he]; rfl⟩

/-- Witness for C3: fixed delay of 2 minutes sleeps 120 seconds, fixed delay of
-1 minutes sleeps nothing, and a random delay with min/max given in reversed
order (3 then 1 minutes) sleeps a value in `[60, 180]` seconds. -/
theorem apply_delay_duration_spec_inst :
    (apply_delay parse0 uniform0 cacheFixed "STEP" =
      [DelayEvent.infoFixedDelay, DelayEvent.sleep (2 * 60)]) ∧
    (apply_delay parse0 uniform0 cacheFixedNeg "STEP" = []) ∧
    (apply_delay parse0 uniform0 cacheRandom "ACTION" =
      [DelayEvent.infoRandomDelay,
        DelayEvent.sleep (uniform0 (min (3 * 60 : ℚ) (1 * 60)) (max (3 * 60) (1 * 60)))] ∧
      min (3 * 60 : ℚ) (1 * 60) ≤ uniform0 (min (3 * 60) (1 * 60)) (max (3 * 60) (1 * 60)) ∧
      uniform0 (min (3 * 60 : ℚ) (1 * 60)) (max (3 * 60) (1 * 60)) ≤ max (3 * 60) (1 * 60)) := by
  refine ⟨?_, ?_, ?_⟩
  · exact ((apply_delay_duration_spec parse0 uniform0 cacheFixed "STEP"
      ⟨false, "2.0", "0.0", "0.0"⟩ rfl).2.1 2 rfl rfl (by norm_num)).1
  · exact ((apply_delay_duration_spec parse0 uniform0 cacheFixedNeg "STEP"
      ⟨false, "-1.0", "0.0", "0.0"⟩ rfl).1 (-1) rfl rfl (by norm_num)).1
  · exact ((apply_delay_duration_spec parse0 uniform0 cacheRandom "ACTION"
      ⟨true, "0.0", "3.0", "1.0"⟩ rfl).2.2 3 1 rfl rfl rfl
      (fun x y h => ⟨le_refl x, h⟩)).1 (by norm_num)

/-- C5: when the cached numeric fields do not parse as floats (the fixed
`delay_minutes`, or either of min/max in the random case), `_apply_delay` logs
a warning, applies no delay, and returns normally (the `ValueError` is caught,
never propagated). -/
theorem apply_delay_malformed_config_warns (parseFloat : String → Option ℚ)
    (uniform : ℚ → ℚ → ℚ) (cache : Cache) (dt : String) (s : DelaySettings)
    (hs : cacheGet cache dt = some s) :
    (s.enable_random = false → parseFloat s.delay_minutes = none →
      apply_delay parseFloat uniform cache dt = [DelayEvent.warnInvalidFixed dt] ∧
      totalSleep (apply_delay parseFloat uniform cache dt) = 0) ∧
    (s.enable_random = true →
      parseFloat s.min_delay_minutes = none ∨ parseFloat s.max_delay_minutes = none →
      apply_delay parseFloat uniform cache dt = [DelayEvent.warnInvalidRandom dt] ∧
      totalSleep (apply_delay parseFloat uniform cache dt) = 0) := by
  constructor
  · intro hr hv
    have he : apply_delay parseFloat uniform cache dt = [DelayEvent.warnInvalidFixed dt] := by
      unfold apply_delay
      rw [hs]
      simp [hr, hv]
    exact ⟨he, by rw [he]; rfl⟩
  · intro hr hor
    have he : apply_delay parseFloat uniform cache dt = [DelayEvent.warnInvalidRandom dt] := by
      unfold apply_delay
      rw [hs]
      rcases hor with hm | hm <;>
        cases hmin : parseFloat s.min_delay_minutes <;>
        cases hmax : parseFloat s.max_delay_minutes <;>
        simp_all [hr]
    exact ⟨he, by rw [he]; rfl⟩

/-- Witness for C5: a malformed fixed `TASK` value and a malformed random
`STEP` min value each produce only the warning and zero sleep. -/
theorem apply_delay_malformed_config_warns_inst :
    (apply_delay parse0 uniform0 cacheBadFixed "TASK" = [DelayEvent.warnInvalidFixed "TASK"] ∧
      totalSleep (apply_delay parse0 uniform0 cacheBadFixed "TASK") = 0) ∧
    (apply_delay parse0 uniform0 cacheBadRandom "STEP" =
        [DelayEvent.warnInvalidRandom "STEP"] ∧
      totalSleep (apply_delay parse0 uniform0 cacheBadRandom "STEP") = 0) := by
  constructor
  · exact (apply_delay_malformed_config_warns parse0 uniform0 cacheBadFixed "TASK"
      ⟨false, "abc", "0.0", "0.0"⟩ rfl).1 rfl rfl
  · exact (apply_delay_malformed_config_warns parse0 uniform0 cacheBadRandom "STEP"
      ⟨true, "0.0", "abc", "1.0"⟩ rfl).2 rfl (Or.inl rfl)

/-- C10: after construction and after every `invalidate_delay_cache`, the cache
holds an entry for each of STEP, ACTION and TASK, each carrying all four fields
with string defaults substituted for missing or empty environment variables;
hence `_apply_delay` never takes the missing-settings warning branch for these
categories — that branch is reachable only for an unknown category name. -/
theorem cache_complete_for_known_categories (env : Env) (c : Cache)
    (parseFloat : String → Option ℚ) (uniform : ℚ → ℚ → ℚ) (dt : String) :
    (dt ∈ delay_types →
      cacheGet (cache_delay_settings env c) dt = some (cacheDelaySettingsFor env dt) ∧
      ((env (dt ++ "_ENABLE_RANDOM_INTERVAL") = none ∨
          env (dt ++ "_ENABLE_RANDOM_INTERVAL") = some "") →
        (cacheDelaySettingsFor env dt).enable_random = false) ∧
      ((env (dt ++ "_DELAY_MINUTES") = none ∨ env (dt ++ "_DELAY_MINUTES") = some "") →
        (cacheDelaySettingsFor env dt).delay_minutes = "0.0") ∧
      ((env (dt ++ "_MIN_DELAY_MINUTES") = none ∨
          env (dt ++ "_MIN_DELAY_MINUTES") = some "") →
        (cacheDelaySettingsFor env dt).min_delay_minutes = "0.0") ∧
      ((env (dt ++ "_MAX_DELAY_MINUTES") = none ∨
          env (dt ++ "_MAX_DELAY_MINUTES") = some "") →
        (cacheDelaySettingsFor env dt).max_delay_minutes = "0.0") ∧
      DelayEvent.warnMissing dt ∉
        apply_delay parseFloat uniform (cache_delay_settings env c) dt) ∧
    (DelayEvent.warnMissing dt ∈ apply_delay parseFloat uniform (cache_delay_settings env c) dt →
      dt ∉ delay_types) := by
  constructor
  · intro hdt
    refine ⟨cacheGet_cache_delay_settings env c dt hdt, ?_, ?_, ?_, ?_, ?_⟩
    · intro h
      rcases h with h | h <;> simp [cacheDelaySettingsFor, h] <;> decide
    · intro h
      rcases h with h | h <;> simp [cacheDelaySettingsFor, h]
    · intro h
      rcases h with h | h <;> simp [cacheDelaySettingsFor, h]
    · intro h
      rcases h with h | h <;> simp [cacheDelaySettingsFor, h]
    · exact warnMissing_not_mem parseFloat uniform (cache_delay_settings env c) dt
        (cacheDelaySettingsFor env dt) (cacheGet_cache_delay_settings env c dt hdt)
  · intro hmem hdt
    exact warnMissing_not_mem parseFloat uniform (cache_delay_settings env c) dt
      (cacheDelaySettingsFor env dt) (cacheGet_cache_delay_settings env c dt hdt) hmem

/-- Witness for C10 with the empty environment and the empty pre-existing
cache, at category STEP. -/
theorem cache_complete_for_known_categories_inst :
    cacheGet (cache_delay_settings envNone []) "STEP" =
      some (cacheDelaySettingsFor envNone "STEP") ∧
    (cacheDelaySettingsFor envNone "STEP").enable_random = false ∧
    (cacheDelaySettingsFor envNone "STEP").delay_minutes = "0.0" ∧
    DelayEvent.warnMissing "STEP" ∉
      apply_delay parse0 uniform0 (cache_delay_settings envNone []) "STEP" := by
  have h := (cache_complete_for_known_categories envNone [] parse0 uniform0 "STEP").1
    (by simp [delay_types])
  exact ⟨h.1, h.2.1 (Or.inl rfl), h.2.2.1 (Or.inl rfl), h.2.2.2.2.2⟩

/-- Counterexample for C8: `_cache_delay_settings` does not replace the mapping
wholesale.  With the STEP and TASK fixed delays changed in the environment, the
cache state after the first of the three per-category assignments (`cacheMid`)
differs from both the pre-invalidation mapping and the post-invalidation
mapping: its STEP entry is already new while its TASK entry is still old. -/
theorem invalidate_cache_not_wholesale :
    cache_delay_settings_states envChanged (initial_cache envNone) =
      [initial_cache envNone, cacheMid,
        cacheInsert cacheMid "ACTION" (cacheDelaySettingsFor envChanged "ACTION"),
        invalidate_delay_cache envChanged (initial_cache envNone)] ∧
    cacheMid ≠ initial_cache envNone ∧
    cacheMid ≠ invalidate_delay_cache envChanged (initial_cache envNone) ∧
    cacheGet cacheMid "STEP" =
      cacheGet (invalidate_delay_cache envChanged (initial_cache envNone)) "STEP" ∧
    cacheGet cacheMid "STEP" ≠ cacheGet (initial_cache envNone) "STEP" ∧
    cacheGet cacheMid "TASK" = cacheGet (initial_cache envNone) "TASK" ∧
    cacheGet cacheMid "TASK" ≠
      cacheGet (invalidate_delay_cache envChanged (initial_cache envNone)) "TASK" := by
  refine ⟨rfl, by decide, by decide, rfl, by decide, rfl, by decide⟩

/-- C8 as amended: invalidation re-reads the environment and rebuilds the three
category entries one dict assignment at a time (installing a fresh config per
category, so a per-category snapshot held by an in-flight `_apply_delay` stays
unchanged); once it completes, every known category's entry reflects the
current environment, and `_apply_delay` depends only on the cached entry for
its category — no configuration source is consulted between invalidations —
so subsequent calls reflect changed environment values without reconstructing
the controller. -/
theorem invalidate_cache_rebuild_spec (env : Env) (c : Cache) (dt : String)
    (hdt : dt ∈ delay_types) :
    cacheGet (invalidate_delay_cache env c) dt = some (cacheDelaySettingsFor env dt) ∧
    (∀ (parseFloat : String → Option ℚ) (uniform : ℚ → ℚ → ℚ) (c1 c2 : Cache),
      cacheGet c1 dt = cacheGet c2 dt →
      apply_delay parseFloat uniform c1 dt = apply_delay parseFloat uniform c2 dt) ∧
    (cache_delay_settings_states env c).head? = some c ∧
    (cache_delay_settings_states env c).getLast? = some (invalidate_delay_cache env c) := by
  refine ⟨cacheGet_cache_delay_settings env c dt hdt, ?_, rfl, rfl⟩
  intro parseFloat uniform c1 c2 h12
  unfold apply_delay
  rw [h12]

/-- Witness for C8: invalidating over the changed environment updates the STEP
entry seen by `_apply_delay`, and equal cached entries give equal behaviour. -/
theorem invalidate_cache_rebuild_spec_inst :
    cacheGet (invalidate_delay_cache envChanged (initial_cache envNone)) "STEP" =
      some (cacheDelaySettingsFor envChanged "STEP") ∧
    apply_delay parse0 uniform0 (invalidate_delay_cache envChanged (initial_cache envNone))
        "STEP" =
      apply_delay parse0 uniform0 [("STEP", cacheDelaySettingsFor envChanged "STEP")] "STEP" := by
  have h := invalidate_cache_rebuild_spec envChanged (initial_cache envNone) "STEP"
    (by simp [delay_types])
  exact ⟨h.1, h.2.1 parse0 uniform0 _ _ (by rw [h.1]; rfl)⟩

theorem hookStartEvs_benign (o : Option (AgentState → AgentState)) :
    (hookStartEvs o).all benign = true := by cases o <;> rfl

theorem hookEndEvs_benign (o : Option (AgentState → AgentState)) :
    (hookEndEvs o).all benign = true := by cases o <;> rfl

theorem completionEvs_benign (d g ok : Bool) :
    (completionEvs d g ok).1.all benign = true := by
  cases d <;> cases g <;> cases ok <;> rfl

theorem preEvents_benign (b : Bool) : (preEvents b).all benign = true := by
  cases b <;> rfl

theorem replicate_pauseSleep_benign (k : Nat) :
    (List.replicate k RunEvent.pauseSleep).all benign = true := by
  rw [List.all_eq_true]
  intro e he
  rw [List.eq_of_mem_replicate he]
  rfl

theorem iterTail_shape (env : RunEnv) (max_steps stepIdx : Nat) (s2 : AgentState)
    (sigs1 : List Signal) :
    ∃ pre post, (iterTail env max_steps stepIdx s2 sigs1).events =
      pre ++ (RunEvent.applyDelay "STEP" stepIdx ::
        (taskDelayEvs stepIdx ++ (RunEvent.stepExec stepIdx :: post))) ∧
      pre.all benign = true ∧ post.all benign = true := by
  refine ⟨hookStartEvs env.onStepStart, _, rfl, hookStartEvs_benign _, ?_⟩
  rw [List.all_append]
  rw [hookEndEvs_benign, completionEvs_benign]
  rfl

theorem runIter_shape (env : RunEnv) (max_steps stepIdx : Nat) (s0 : AgentState)
    (sigs0 : List Signal) (out : IterOut)
    (h : runIter env max_steps stepIdx s0 sigs0 = some out) :
    IterEventsShape stepIdx out.events := by
  unfold runIter at h
  by_cases h1 : env.settings.max_failures ≤ (preState env s0).consecutive_failures
  · rw [if_pos h1] at h
    cases h
    exact Or.inl ⟨preEvents s0.paused, rfl, preEvents_benign _⟩
  · rw [if_neg h1] at h
    by_cases h2 : (preState env s0).stopped
    · rw [if_pos h2] at h
      cases h
      exact Or.inr (Or.inl ⟨preEvents s0.paused, rfl, preEvents_benign _⟩)
    · rw [if_neg h2] at h
      cases hbw : busyWait (preState env s0) sigs0 with
      | none => rw [hbw] at h; cases h
      | some r =>
        obtain ⟨s2, sigs1, k⟩ := r
        rw [hbw] at h
        cases h
        obtain ⟨pre, post, he, hb1, hb2⟩ := iterTail_shape env max_steps stepIdx s2 sigs1
        refine Or.inr (Or.inr ⟨preEvents s0.paused ++ (List.replicate k RunEvent.pauseSleep ++ pre),
          post, ?_, ?_, hb2⟩)
        · show preEvents s0.paused ++
            (List.replicate k RunEvent.pauseSleep ++
              (iterTail env max_steps stepIdx s2 sigs1).events) = _
          rw [he]
          simp [List.append_assoc]
        · simp only [List.all_append, preEvents_benign, replicate_pauseSleep_benign, hb1]
          rfl

theorem runSteps_shape (env : RunEnv) (max_steps : Nat) :
    ∀ (fuel stepIdx : Nat) (s : AgentState) (sigs : List Signal)
      (s1 : AgentState) (blocks : List (Nat × List RunEvent)) (f : Bool),
      runSteps env max_steps fuel stepIdx s sigs = some (s1, blocks, f) →
      blocks.length ≤ fuel ∧ ∀ i evs, (i, evs) ∈ blocks → IterEventsShape i evs := by
  intro fuel
  induction fuel with
  | zero =>
    intro stepIdx s sigs s1 blocks f h
    unfold runSteps at h
    cases h
    exact ⟨Nat.le_refl 0, by intro i evs hm; simp at hm⟩
  | succ n ih =>
    intro stepIdx s sigs s1 blocks f h
    unfold runSteps at h
    cases hIt : runIter env max_steps stepIdx s sigs with
    | none => rw [hIt] at h; cases h
    | some out =>
      rw [hIt] at h
      dsimp only at h
      by_cases hb : out.broke
      · rw [if_pos hb] at h
        cases h
        refine ⟨by simp, ?_⟩
        intro i evs hm
        simp only [List.mem_singleton, Prod.mk.injEq] at hm
        obtain ⟨hi, hevs⟩ := hm
        subst hi
        subst hevs
        exact runIter_shape env max_steps i s sigs out hIt
      · rw [if_neg hb] at h
        cases hR : runSteps env max_steps n (stepIdx + 1) out.state out.sigs with
        | none => rw [hR] at h; cases h
        | some r =>
          obtain ⟨s2, blocks2, f2⟩ := r
          rw [hR] at h
          obtain ⟨hlen, hmem⟩ := ih (stepIdx + 1) out.state out.sigs s2 blocks2 f2 hR
          cases h
          refine ⟨by simpa using Nat.succ_le_succ hlen, ?_⟩
          intro i evs hm
          rcases List.mem_cons.mp hm with hm | hm
          · obtain ⟨hi, hevs⟩ := Prod.mk.injEq .. ▸ hm
            subst hi
            subst hevs
            exact runIter_shape env max_steps i s sigs out hIt
          · exact hmem i evs hm

theorem benign_countP_zero (l : List RunEvent) (h : l.all benign = true) :
    l.countP isStepExec = 0 := by
  rw [List.countP_eq_zero]
  intro a ha
  have hb := List.all_eq_true.mp h a ha
  cases a <;> simp_all [benign, isStepExec]

theorem taskDelayEvs_countP (i : Nat) : (taskDelayEvs i).countP isStepExec = 0 := by
  unfold taskDelayEvs
  split <;> rfl

theorem shape_stepExec_count (i : Nat) (evs : List RunEvent) (h : IterEventsShape i evs) :
    evs.countP isStepExec ≤ 1 := by
  rcases h with ⟨pre, he, hb⟩ | ⟨pre, he, hb⟩ | ⟨pre, post, he, hb1, hb2⟩ <;> subst he
  · simp [List.countP_append, List.countP_cons, benign_countP_zero _ hb, isStepExec]
  · simp [List.countP_append, List.countP_cons, benign_countP_zero _ hb, isStepExec]
  · simp [List.countP_append, List.countP_cons, benign_countP_zero _ hb1,
      benign_countP_zero _ hb2, taskDelayEvs_countP, isStepExec]

theorem sum_le_length : ∀ l : List Nat, (∀ x ∈ l, x ≤ 1) → l.sum ≤ l.length := by
  intro l
  induction l with
  | nil => intro _; simp
  | cons a t ih =>
    intro h
    have ha := h a (by simp)
    have ht := ih (fun x hx => h x (by simp [hx]))
    simp only [List.sum_cons, List.length_cons]
    omega

theorem run_normal_elim (env : RunEnv) (max_steps : Nat) (s : AgentState)
    (sigs : List Signal) (save_fails : Bool) (r : RunResult)
    (h : run env max_steps s sigs none save_fails = some r) :
    ∃ s1 blocks f, runSteps env max_steps max_steps 0 s sigs = some (s1, blocks, f) ∧
      r = ⟨if f then s1.history ++ [failure_record] else s1.history, blocks, f,
        finalize env.settings env.sensitive_data save_fails⟩ := by
  unfold run at h
  cases hR : runSteps env max_steps max_steps 0 s sigs with
  | none => rw [hR] at h; cases h
  | some r0 =>
    obtain ⟨s1, blocks, f⟩ := r0
    rw [hR] at h
    exact ⟨s1, blocks, f, rfl, (Option.some.inj h).symm⟩

/-- Counterexample for C1 as stated: a run that breaks on the stop flag ends
without the history signalling completion, yet no synthetic failure record is
appended (the `for/else` branch does not fire on a `break`). -/
theorem run_stop_break_no_failure_record :
    run baseEnv 1 stoppedState [] none false = some cRunStopped ∧
    baseEnv.isDone cRunStopped.history = false ∧
    cRunStopped.history = [] ∧
    cRunStopped.history.getLast? ≠ some failure_record := by
  refine ⟨rfl, rfl, rfl, by simp [cRunStopped]⟩

/-- C1 as amended: the run loop performs at most `max_steps` iterations (and at
most `max_steps` step executions); whenever the loop exhausts its budget
without breaking (completion, stop, or failure threshold), the synthetic
failure record carrying the message "Failed to complete task in maximum steps"
is appended as the final history record and `run` returns the history as an
ordinary value. -/
theorem run_budget_exhaustion_appends_failure (env : RunEnv) (max_steps : Nat)
    (s : AgentState) (sigs : List Signal) (save_fails : Bool) (r : RunResult)
    (h : run env max_steps s sigs none save_fails = some r) :
    r.blocks.length ≤ max_steps ∧
    stepExecTotal r.blocks ≤ max_steps ∧
    (r.exhausted = true →
      ∃ hist0, r.history = hist0 ++ [failure_record] ∧
        r.history.getLast? = some failure_record) ∧
    failure_record.result.map ActionResult.error = [some exhaustion_error_message] := by
  obtain ⟨s1, blocks, f, hR, hr⟩ := run_normal_elim env max_steps s sigs save_fails r h
  subst hr
  obtain ⟨hlen, hmem⟩ := runSteps_shape env max_steps max_steps 0 s sigs s1 blocks f hR
  refine ⟨hlen, ?_, ?_, rfl⟩
  · unfold stepExecTotal
    dsimp only
    apply le_trans ?_ hlen
    rw [show blocks.length = (blocks.map (fun b => b.2.countP isStepExec)).length by
      rw [List.length_map]]
    apply sum_le_length
    intro x hx
    obtain ⟨b, hb, hxe⟩ := List.mem_map.mp hx
    obtain ⟨i, evs⟩ := b
    rw [← hxe]
    exact shape_stepExec_count i evs (hmem i evs hb)
  · intro hex
    have hf : f = true := hex
    subst hf
    dsimp only
    rw [if_pos rfl]
    exact ⟨s1.history, rfl, by simp⟩

/-- Witness for C1 at a concrete one-step run that exhausts its budget. -/
theorem run_budget_exhaustion_appends_failure_inst :
    run baseEnv 1 idleState [] none false = some cRunExhaust ∧
    cRunExhaust.blocks.length ≤ 1 ∧
    stepExecTotal cRunExhaust.blocks ≤ 1 ∧
    ∃ hist0, cRunExhaust.history = hist0 ++ [failure_record] ∧
      cRunExhaust.history.getLast? = some failure_record := by
  have hrun : run baseEnv 1 idleState [] none false = some cRunExhaust := rfl
  have h := run_budget_exhaustion_appends_failure baseEnv 1 idleState [] false cRunExhaust hrun
  exact ⟨hrun, h.1, h.2.1, h.2.2.1 rfl⟩

/-- C6: if at the failure-threshold check of an iteration
`consecutive_failures ≥ max_failures`, the loop exits before executing another
step (the iteration's whole event list is the logged break), the `for/else`
branch does not fire, and `run` returns the unchanged history as an ordinary
value. -/
theorem failure_threshold_stops_loop (env : RunEnv) (max_steps fuel stepIdx : Nat)
    (s : AgentState) (sigs : List Signal) (save_fails : Bool)
    (hp : s.paused = false) (hf : env.settings.max_failures ≤ s.consecutive_failures) :
    runIter env max_steps stepIdx s sigs =
      some ⟨s, sigs, [RunEvent.failuresExceededBreak], true⟩ ∧
    runSteps env max_steps (fuel + 1) stepIdx s sigs =
      some (s, [(stepIdx, [RunEvent.failuresExceededBreak])], false) ∧
    run env (max_steps + 1) s sigs none save_fails =
      some ⟨s.history, [(0, [RunEvent.failuresExceededBreak])], false,
        finalize env.settings env.sensitive_data save_fails⟩ := by
  have hpre : preState env s = s := by
    unfold preState
    rw [hp]
    rfl
  have key1 : ∀ m i : Nat, runIter env m i s sigs =
      some ⟨s, sigs, [RunEvent.failuresExceededBreak], true⟩ := by
    intro m i
    unfold runIter
    rw [hpre, if_pos hf, hp]
    rfl
  have key2 : ∀ m fl i : Nat, runSteps env m (fl + 1) i s sigs =
      some (s, [(i, [RunEvent.failuresExceededBreak])], false) := by
    intro m fl i
    unfold runSteps
    rw [key1 m i]
    rfl
  refine ⟨key1 max_steps stepIdx, key2 max_steps fuel stepIdx, ?_⟩
  unfold run
  rw [key2 (max_steps + 1) max_steps 0]
  rfl

/-- Witness for C6: five consecutive failures against a threshold of three stop
the loop immediately with no step executed. -/
theorem failure_threshold_stops_loop_inst :
    runIter baseEnv 2 0 failedState [] =
      some ⟨failedState, [], [RunEvent.failuresExceededBreak], true⟩ ∧
    run baseEnv 3 failedState [] none false =
      some ⟨failedState.history, [(0, [RunEvent.failuresExceededBreak])], false,
        finalize baseEnv.settings baseEnv.sensitive_data false⟩ := by
  have h := failure_threshold_stops_loop baseEnv 2 0 0 failedState [] false rfl (by decide)
  exact ⟨h.1, h.2.2⟩

theorem benign_no_applyDelay (l : List RunEvent) (h : l.all benign = true) (c : String)
    (j : Nat) : RunEvent.applyDelay c j ∉ l := by
  intro hm
  have hb := List.all_eq_true.mp h _ hm
  simp [benign] at hb

theorem benign_no_stepExec (l : List RunEvent) (h : l.all benign = true) (j : Nat) :
    RunEvent.stepExec j ∉ l := by
  intro hm
  have hb := List.all_eq_true.mp h _ hm
  simp [benign] at hb

theorem break_shape_no_pacing (pre : List RunEvent) (e : RunEvent)
    (hb : pre.all benign = true) (hbe : benign e = true) :
    (∀ j, RunEvent.stepExec j ∉ pre ++ [e]) ∧
    (∀ c j, RunEvent.applyDelay c j ∉ pre ++ [e]) := by
  constructor
  · intro j hm
    rcases List.mem_append.mp hm with hm | hm
    · exact benign_no_stepExec pre hb j hm
    · simp only [List.mem_singleton] at hm
      rw [← hm] at hbe
      simp [benign] at hbe
  · intro c j hm
    rcases List.mem_append.mp hm with hm | hm
    · exact benign_no_applyDelay pre hb c j hm
    · simp only [List.mem_singleton] at hm
      rw [← hm] at hbe
      simp [benign] at hbe

theorem mem_taskDelayEvs (i : Nat) (c : String) (j : Nat)
    (h : RunEvent.applyDelay c j ∈ taskDelayEvs i) : c = "TASK" ∧ i = 0 ∧ j = 0 := by
  unfold taskDelayEvs at h
  by_cases hi : i = 0
  · rw [if_pos hi] at h
    simp only [List.mem_singleton, RunEvent.applyDelay.injEq] at h
    exact ⟨h.1, hi, h.2.trans hi⟩
  · rw [if_neg hi] at h
    simp at h

theorem taskDelayEvs_no_stepExec (i j : Nat) : RunEvent.stepExec j ∉ taskDelayEvs i := by
  unfold taskDelayEvs
  split <;> simp

/-- C7: in every iteration block of a `run` call that executes the base step
primitive, the STEP delay (with the TASK delay right after it exactly when the
index is 0) immediately precedes the step execution; a TASK delay occurs only
in the iteration of index 0, never later; a STEP delay call occurs in an
iteration exactly when its step executes. -/
theorem step_and_task_delay_placement (env : RunEnv) (max_steps : Nat) (s : AgentState)
    (sigs : List Signal) (save_fails : Bool) (r : RunResult)
    (h : run env max_steps s sigs none save_fails = some r) :
    ∀ i evs, (i, evs) ∈ r.blocks →
      (RunEvent.stepExec i ∈ evs →
        ∃ pre post, evs = pre ++ (RunEvent.applyDelay "STEP" i ::
          (taskDelayEvs i ++ (RunEvent.stepExec i :: post)))) ∧
      (∀ j, RunEvent.applyDelay "TASK" j ∈ evs → i = 0 ∧ j = 0) ∧
      (∀ j, RunEvent.applyDelay "STEP" j ∈ evs → j = i) ∧
      (RunEvent.applyDelay "STEP" i ∈ evs ↔ RunEvent.stepExec i ∈ evs) ∧
      (i = 0 → RunEvent.stepExec 0 ∈ evs → RunEvent.applyDelay "TASK" 0 ∈ evs) := by
  obtain ⟨s1, blocks, f, hR, hr⟩ := run_normal_elim env max_steps s sigs save_fails r h
  subst hr
  obtain ⟨-, hmem⟩ := runSteps_shape env max_steps max_steps 0 s sigs s1 blocks f hR
  intro i evs hm
  dsimp only at hm
  rcases hmem i evs hm with ⟨pre, he, hb⟩ | ⟨pre, he, hb⟩ | ⟨pre, post, he, hb1, hb2⟩
  · subst he
    obtain ⟨hns, hna⟩ := break_shape_no_pacing pre RunEvent.failuresExceededBreak hb rfl
    exact ⟨fun hstep => absurd hstep (hns i),
      fun j hmm => absurd hmm (hna "TASK" j),
      fun j hmm => absurd hmm (hna "STEP" j),
      ⟨fun hmm => absurd hmm (hna "STEP" i), fun hmm => absurd hmm (hns i)⟩,
      fun _ hmm => absurd hmm (hns 0)⟩
  · subst he
    obtain ⟨hns, hna⟩ := break_shape_no_pacing pre RunEvent.stoppedBreak hb rfl
    exact ⟨fun hstep => absurd hstep (hns i),
      fun j hmm => absurd hmm (hna "TASK" j),
      fun j hmm => absurd hmm (hna "STEP" j),
      ⟨fun hmm => absurd hmm (hna "STEP" i), fun hmm => absurd hmm (hns i)⟩,
      fun _ hmm => absurd hmm (hns 0)⟩
  · subst he
    have hstep_mem : RunEvent.stepExec i ∈
        pre ++ (RunEvent.applyDelay "STEP" i ::
          (taskDelayEvs i ++ (RunEvent.stepExec i :: post))) := by
      simp [List.mem_append, List.mem_cons]
    have hdelay_mem : RunEvent.applyDelay "STEP" i ∈
        pre ++ (RunEvent.applyDelay "STEP" i ::
          (taskDelayEvs i ++ (RunEvent.stepExec i :: post))) := by
      simp [List.mem_append, List.mem_cons]
    refine ⟨fun _ => ⟨pre, post, rfl⟩, ?_, ?_, iff_of_true hdelay_mem hstep_mem, ?_⟩
    · intro j hmm
      rcases List.mem_append.mp hmm with hmm | hmm
      · exact absurd hmm (benign_no_applyDelay pre hb1 "TASK" j)
      · rcases List.mem_cons.mp hmm with hmm | hmm
        · exact absurd (RunEvent.applyDelay.injEq .. ▸ hmm).1 (by decide)
        · rcases List.mem_append.mp hmm with hmm | hmm
          · obtain ⟨-, hi, hj⟩ := mem_taskDelayEvs i "TASK" j hmm
            exact ⟨hi, hj⟩
          · rcases List.mem_cons.mp hmm with hmm | hmm
            · exact absurd hmm (by simp)
            · exact absurd hmm (benign_no_applyDelay post hb2 "TASK" j)
    · intro j hmm
      rcases List.mem_append.mp hmm with hmm | hmm
      · exact absurd hmm (benign_no_applyDelay pre hb1 "STEP" j)
      · rcases List.mem_cons.mp hmm with hmm | hmm
        · exact (RunEvent.applyDelay.injEq .. ▸ hmm).2
        · rcases List.mem_append.mp hmm with hmm | hmm
          · obtain ⟨hc, -, -⟩ := mem_taskDelayEvs i "STEP" j hmm
            exact absurd hc (by decide)
          · rcases List.mem_cons.mp hmm with hmm | hmm
            · exact absurd hmm (by simp)
            · exact absurd hmm (benign_no_applyDelay post hb2 "STEP" j)
    · intro hi0 _
      subst hi0
      simp [List.mem_append, List.mem_cons, taskDelayEvs]

/-- Witness for C7: in a concrete two-step exhausting run, block 0 decomposes
with the STEP and TASK delays right before the step, and block 1 (index 1)
contains no TASK delay. -/
theorem step_and_task_delay_placement_inst :
    run baseEnv 2 idleState [] none false = some cRunTwo ∧
    (∃ pre post,
      [RunEvent.applyDelay "STEP" 0, RunEvent.applyDelay "TASK" 0, RunEvent.stepExec 0] =
        pre ++ (RunEvent.applyDelay "STEP" 0 ::
          (taskDelayEvs 0 ++ (RunEvent.stepExec 0 :: post)))) ∧
    RunEvent.applyDelay "TASK" 1 ∉ [RunEvent.applyDelay "STEP" 1, RunEvent.stepExec 1] := by
  have hrun : run baseEnv 2 idleState [] none false = some cRunTwo := rfl
  have h := step_and_task_delay_placement baseEnv 2 idleState [] false cRunTwo hrun
  refine ⟨hrun, ?_, ?_⟩
  · exact (h 0 [RunEvent.applyDelay "STEP" 0, RunEvent.applyDelay "TASK" 0,
      RunEvent.stepExec 0] (by simp [cRunTwo])).1 (by simp)
  · intro hm
    have := (h 1 [RunEvent.applyDelay "STEP" 1, RunEvent.stepExec 1]
      (by simp [cRunTwo])).2.1 1 hm
    exact absurd this.1 (by decide)

theorem runIter_no_step_of_stopped (env : RunEnv)
    (hW : ∀ t, (env.waitForResume t).stopped = t.stopped)
    (max_steps stepIdx : Nat) (s : AgentState) (sigs : List Signal)
    (hst : s.stopped = true) :
    ∃ out, runIter env max_steps stepIdx s sigs = some out ∧ out.broke = true ∧
      ∀ j, RunEvent.stepExec j ∉ out.events := by
  have hs1 : (preState env s).stopped = true := by
    unfold preState
    by_cases hp : s.paused = true
    · simp [hp, hW s, hst]
    · simp only [Bool.not_eq_true] at hp
      simp [hp, hst]
  unfold runIter
  by_cases h1 : env.settings.max_failures ≤ (preState env s).consecutive_failures
  · rw [if_pos h1]
    exact ⟨_, rfl, rfl,
      (break_shape_no_pacing (preEvents s.paused) RunEvent.failuresExceededBreak
        (preEvents_benign _) rfl).1⟩
  · rw [if_neg h1, if_pos hs1]
    exact ⟨_, rfl, rfl,
      (break_shape_no_pacing (preEvents s.paused) RunEvent.stoppedBreak
        (preEvents_benign _) rfl).1⟩

theorem runSteps_no_step_after_stop (env : RunEnv)
    (hW : ∀ t, (env.waitForResume t).stopped = t.stopped) (max_steps : Nat) :
    ∀ (fuel stepIdx : Nat) (s : AgentState) (sigs : List Signal)
      (s1 : AgentState) (blocks : List (Nat × List RunEvent)) (f : Bool),
      s.stopped = true →
      runSteps env max_steps fuel stepIdx s sigs = some (s1, blocks, f) →
      ∀ i evs, (i, evs) ∈ blocks → ∀ j, RunEvent.stepExec j ∉ evs := by
  intro fuel
  cases fuel with
  | zero =>
    intro stepIdx s sigs s1 blocks f _ h
    unfold runSteps at h
    cases h
    intro i evs hm
    simp at hm
  | succ n =>
    intro stepIdx s sigs s1 blocks f hst h
    obtain ⟨out, hIt, hbroke, hnostep⟩ :=
      runIter_no_step_of_stopped env hW max_steps stepIdx s sigs hst
    unfold runSteps at h
    rw [hIt] at h
    dsimp only at h
    rw [if_pos hbroke] at h
    cases h
    intro i evs hm
    simp only [List.mem_singleton, Prod.mk.injEq] at hm
    obtain ⟨-, hevs⟩ := hm
    subst hevs
    exact hnostep

/-- C4 as amended: the paused busy-wait re-checks the `stopped` flag after each
sleep cycle and exits as soon as a stop signal lands; however the current
iteration still proceeds to execute its step (nothing between the busy-wait and
the step re-checks the flag), and the stop then takes effect at the top of the
next iteration — provided the resume-wait oracle preserves the flag, no step
executes in any iteration that starts with `stopped` set. -/
theorem stop_during_pause_behavior :
    (∀ (s : AgentState) (sig : Signal) (rest : List Signal),
      s.paused = true → (applySignal sig s).stopped = true →
      busyWait s (sig :: rest) = some (applySignal sig s, rest, 1)) ∧
    (∀ (env : RunEnv) (max_steps stepIdx : Nat) (s0 : AgentState) (sigs0 : List Signal)
      (s2 : AgentState) (sigs1 : List Signal) (k : Nat),
      (preState env s0).consecutive_failures < env.settings.max_failures →
      (preState env s0).stopped = false →
      busyWait (preState env s0) sigs0 = some (s2, sigs1, k) →
      ∃ out, runIter env max_steps stepIdx s0 sigs0 = some out ∧
        RunEvent.stepExec stepIdx ∈ out.events) ∧
    (∀ env : RunEnv, (∀ t, (env.waitForResume t).stopped = t.stopped) →
      ∀ (max_steps fuel stepIdx : Nat) (s : AgentState) (sigs : List Signal)
        (s1 : AgentState) (blocks : List (Nat × List RunEvent)) (f : Bool),
        s.stopped = true →
        runSteps env max_steps fuel stepIdx s sigs = some (s1, blocks, f) →
        ∀ i evs, (i, evs) ∈ blocks → ∀ j, RunEvent.stepExec j ∉ evs) := by
  refine ⟨?_, ?_, ?_⟩
  · intro s sig rest hp hs
    unfold busyWait
    rw [if_pos hp]
    dsimp only
    rw [if_pos hs]
  · intro env max_steps stepIdx s0 sigs0 s2 sigs1 k hf hst hbw
    unfold runIter
    rw [if_neg (not_le.mpr hf), if_neg (by simp [hst]), hbw]
    dsimp only
    refine ⟨_, rfl, ?_⟩
    obtain ⟨pre, post, he, -, -⟩ := iterTail_shape env max_steps stepIdx s2 sigs1
    dsimp only
    rw [he]
    simp [List.mem_append, List.mem_cons]
  · intro env hW max_steps fuel stepIdx s sigs s1 blocks f hst h
    exact runSteps_no_step_after_stop env hW max_steps fuel stepIdx s sigs s1 blocks f hst h

/-- Counterexample for C4 as stated: a stop signal that lands during the paused
busy-wait sets the flag (the busy-wait exits with `stopped = true` after one
sleep), yet the very same iteration still executes its step — a further step
runs after the stop is set, and the loop only breaks at the next iteration
top. -/
theorem stop_during_pause_executes_step :
    busyWait pausedState [Signal.stopSig] =
      some ({ pausedState with stopped := true }, [], 1) ∧
    run baseEnv 2 pausedState [Signal.stopSig] none false = some cRunPauseStop ∧
    cRunPauseStop.blocks =
      [(0, [RunEvent.waitForResume, RunEvent.pauseSleep, RunEvent.applyDelay "STEP" 0,
          RunEvent.applyDelay "TASK" 0, RunEvent.stepExec 0]),
        (1, [RunEvent.waitForResume, RunEvent.stoppedBreak])] := by
  exact ⟨rfl, rfl, rfl⟩

/-- Witness for C4: concrete busy-wait stop, a concrete iteration that still
steps, and a concrete stopped loop entry that never steps. -/
theorem stop_during_pause_behavior_inst :
    busyWait pausedState [Signal.stopSig] =
      some (applySignal Signal.stopSig pausedState, [], 1) ∧
    (∃ out, runIter baseEnv 2 0 pausedState [Signal.stopSig] = some out ∧
      RunEvent.stepExec 0 ∈ out.events) ∧
    RunEvent.stepExec 0 ∉ [RunEvent.stoppedBreak] := by
  have h := stop_during_pause_behavior
  refine ⟨h.1 pausedState Signal.stopSig [] rfl rfl, ?_, ?_⟩
  · exact h.2.1 baseEnv 2 0 pausedState [Signal.stopSig]
      { pausedState with stopped := true } [] 1 (by decide) rfl rfl
  · exact h.2.2 baseEnv (fun t => rfl) 2 1 0 stoppedState [] stoppedState
      [(0, [RunEvent.stoppedBreak])] false rfl rfl 0 [RunEvent.stoppedBreak] (by simp) 0

theorem finalize_fin_facts (st : Settings) (sd : Option (List (String × String)))
    (save_fails : Bool) :
    (finalize st sd save_fails).head? = some FinEvent.unregisterSignalHandler ∧
    FinEvent.close ∈ finalize st sd save_fails ∧
    (∀ p, st.save_playwright_script_path = some p →
      FinEvent.attemptScriptSave p (sensitiveKeys sd) ∈ finalize st sd save_fails) ∧
    (∀ p ks, FinEvent.attemptScriptSave p ks ∈ finalize st sd save_fails →
      ks = sensitiveKeys sd) ∧
    (st.generate_gif.truthy = true →
      FinEvent.createGif st.generate_gif.outputPath ∈ finalize st sd save_fails) ∧
    (save_fails = true → ∀ p, st.save_playwright_script_path = some p →
      ∃ l1 l2, finalize st sd save_fails = l1 ++ (FinEvent.scriptSaveFailed :: l2) ∧
        FinEvent.close ∈ l2 ∧
        (st.generate_gif.truthy = true →
          FinEvent.createGif st.generate_gif.outputPath ∈ l2)) := by
  refine ⟨rfl, by simp [finalize], ?_, ?_, ?_, ?_⟩
  · intro p hp
    simp [finalize, scriptEvents, hp]
  · intro p ks hm
    cases hsp : st.save_playwright_script_path with
    | none =>
      cases hgc : st.generate_gif.truthy <;>
        simp [finalize, scriptEvents, gifEvents, hsp, hgc] at hm
    | some q =>
      cases hgc : st.generate_gif.truthy <;> cases save_fails <;>
        simp [finalize, scriptEvents, gifEvents, hsp, hgc] at hm <;>
        exact hm.2
  · intro hg
    simp [finalize, gifEvents, hg]
  · intro hsf p hp
    subst hsf
    refine ⟨[FinEvent.unregisterSignalHandler,
      FinEvent.attemptScriptSave p (sensitiveKeys sd)],
      FinEvent.close :: gifEvents st, ?_, by simp, ?_⟩
    · simp [finalize, scriptEvents, hp]
    · intro hg
      simp [gifEvents, hg]

/-- C9: on every exit path of `run` (normal completion, budget exhaustion,
stop, failure threshold, or interrupt) the `finally` block executes: the signal
handler is unregistered first; when a save path is configured the replay script
export is attempted with the sensitive-data keys passed by name only; `close`
always runs; the GIF is rendered when configured; and a script-export failure
is caught and does not prevent close and GIF from running after it. -/
theorem run_finalization_always (env : RunEnv) (max_steps : Nat) (s : AgentState)
    (sigs : List Signal) (interrupt : Option AgentState) (save_fails : Bool)
    (r : RunResult) (h : run env max_steps s sigs interrupt save_fails = some r) :
    r.fin = finalize env.settings env.sensitive_data save_fails ∧
    r.fin.head? = some FinEvent.unregisterSignalHandler ∧
    FinEvent.close ∈ r.fin ∧
    (∀ p, env.settings.save_playwright_script_path = some p →
      FinEvent.attemptScriptSave p (sensitiveKeys env.sensitive_data) ∈ r.fin) ∧
    (∀ p ks, FinEvent.attemptScriptSave p ks ∈ r.fin →
      ks = sensitiveKeys env.sensitive_data) ∧
    (env.settings.generate_gif.truthy = true →
      FinEvent.createGif env.settings.generate_gif.outputPath ∈ r.fin) ∧
    (save_fails = true → ∀ p, env.settings.save_playwright_script_path = some p →
      ∃ l1 l2, r.fin = l1 ++ (FinEvent.scriptSaveFailed :: l2) ∧
        FinEvent.close ∈ l2 ∧
        (env.settings.generate_gif.truthy = true →
          FinEvent.createGif env.settings.generate_gif.outputPath ∈ l2)) := by
  have hfin : r.fin = finalize env.settings env.sensitive_data save_fails := by
    cases interrupt with
    | some sI =>
      unfold run at h
      cases h
      rfl
    | none =>
      obtain ⟨s1, blocks, f, hR, hr⟩ := run_normal_elim env max_steps s sigs save_fails r h
      subst hr
      rfl
  obtain ⟨f1, f2, f3, f4, f5, f6⟩ :=
    finalize_fin_facts env.settings env.sensitive_data save_fails
  rw [hfin]
  exact ⟨rfl, f1, f2, f3, f4, f5, f6⟩

/-- Witness for C9: a normal exhausting run with artifacts configured and a
failing export (close and GIF still run), plus an interrupted run (finalization
still runs). -/
theorem run_finalization_always_inst :
    run artEnv 0 idleState [] none true = some cRunArt ∧
    run baseEnv 5 idleState [] (some stoppedState) false = some cRunIntr ∧
    cRunArt.fin.head? = some FinEvent.unregisterSignalHandler ∧
    FinEvent.close ∈ cRunArt.fin ∧
    FinEvent.attemptScriptSave "script.py" (some ["user"]) ∈ cRunArt.fin ∧
    FinEvent.createGif "out.gif" ∈ cRunArt.fin ∧
    cRunIntr.fin.head? = some FinEvent.unregisterSignalHandler := by
  have h1 := run_finalization_always artEnv 0 idleState [] none true cRunArt rfl
  have h2 := run_finalization_always baseEnv 5 idleState [] (some stoppedState) false
    cRunIntr rfl
  exact ⟨rfl, rfl, h1.2.1, h1.2.2.1, h1.2.2.2.1 "script.py" rfl,
    h1.2.2.2.2.2.1 rfl, h2.2.1⟩

end BrowserUseAgent
